import Mathlib

/-!
Verification development for the `add-client.py` peer-enrollment script of the
amneziawg-docker-server repository.

The script is shallowly embedded here.  Text is modelled line-oriented: a file
is a `List Str` where `Str := List Char` is one line (without its newline).
The Python regular expressions used by the script are hand-compiled into
total character-list matchers with the same behaviour on line-structured
input (none of the patterns is intended to match across a line boundary).
External effects are made explicit:

* the filesystem state touched by the script is a `World`
  (server config lines, `server.keys` lines, the set of per-client
  directories, and the per-client files);
* the outputs of the shelled-out `awg` commands are inputs (`KeyOutputs`),
  carrying the raw stdout; the script's `.strip()` is applied by the model,
  mirroring `run_cmd_with_input`;
* environment variables are an `Env` of optional values, with the script's
  defaults applied via `Option.getD`.
-/

namespace AddClient

abbrev Str := List Char

def str (s : String) : Str := s.data

/-- Python `\s` on the characters that can occur in a line. -/
def isWs (c : Char) : Bool :=
  c = ' ' || c = '\t' || c = '\n' || c = '\r' || c = '\x0b' || c = '\x0c'

def isDig (c : Char) : Bool := '0' ≤ c && c ≤ '9'

/-- Skip a (possibly empty) run of whitespace: `\s*`. -/
def dropWs : Str → Str
  | [] => []
  | c :: r => if isWs c then dropWs r else c :: r

/-- Greedily take a run of digits: the `\d*` part of `\d+` (emptiness is
checked by callers). -/
def takeDigits : Str → Str × Str
  | [] => ([], [])
  | c :: r =>
    if isDig c then
      let p := takeDigits r
      (c :: p.1, p.2)
    else ([], c :: r)

/-- Greedily take a run of non-whitespace: the core of `\S+`. -/
def takeNonWs : Str → Str × Str
  | [] => ([], [])
  | c :: r =>
    if isWs c then ([], c :: r)
    else
      let p := takeNonWs r
      (c :: p.1, p.2)

/-- Match a literal string at the front, returning the rest. -/
def stripLit : Str → Str → Option Str
  | [], s => some s
  | _ :: _, [] => none
  | a :: l, b :: s => if a = b then stripLit l s else none

def expectChar (c : Char) : Str → Option Str
  | [] => none
  | b :: s => if b = c then some s else none

def digitVal (c : Char) : Nat := c.toNat - '0'.toNat

/-- Numeric value of a digit string, as Python `int` reads it. -/
def digitsVal (l : Str) : Nat := l.foldl (fun a c => 10 * a + digitVal c) 0

/-- Python `str.strip()`. -/
def trimWs (l : Str) : Str := ((dropWs (dropWs l).reverse)).reverse

/-- Decimal rendering of a natural number, as Python `str(n)` in an f-string. -/
def digitChar : Nat → Char
  | 0 => '0' | 1 => '1' | 2 => '2' | 3 => '3' | 4 => '4'
  | 5 => '5' | 6 => '6' | 7 => '7' | 8 => '8' | _ => '9'

def natToStrAux (fuel : Nat) (n : Nat) : Str :=
  match fuel with
  | 0 => []
  | f + 1 => if n < 10 then [digitChar n] else natToStrAux f (n / 10) ++ [digitChar (n % 10)]

def natToStr (n : Nat) : Str := natToStrAux (n + 1) n

/-- Try a matcher at every start position of a line (`re.search` within the
line). -/
def searchLineWith {α : Type} (m : Str → Option α) : Str → Option α
  | [] => m []
  | c :: r =>
    match m (c :: r) with
    | some v => some v
    | none => searchLineWith m r

/-- First line of the document on which the matcher fires (`re.search` over
the whole text, line-structured). -/
def firstSome {α : Type} (f : Str → Option α) : List Str → Option α
  | [] => none
  | l :: ls =>
    match f l with
    | some v => some v
    | none => firstSome f ls

/-- `Address\s*=\s*(\d+\.\d+\.\d+)\.\d+/\d+` anchored at the current
position; returns group 1, the three-octet network. -/
def matchAddressAt (s : Str) : Option Str :=
  match stripLit (str "Address") s with
  | none => none
  | some s1 =>
  match expectChar '=' (dropWs s1) with
  | none => none
  | some s2 =>
  let p1 := takeDigits (dropWs s2)
  if p1.1 = [] then none else
  match expectChar '.' p1.2 with
  | none => none
  | some s3 =>
  let p2 := takeDigits s3
  if p2.1 = [] then none else
  match expectChar '.' p2.2 with
  | none => none
  | some s4 =>
  let p3 := takeDigits s4
  if p3.1 = [] then none else
  match expectChar '.' p3.2 with
  | none => none
  | some s5 =>
  let p4 := takeDigits s5
  if p4.1 = [] then none else
  match expectChar '/' p4.2 with
  | none => none
  | some s6 =>
  let p5 := takeDigits s6
  if p5.1 = [] then none else
  some (p1.1 ++ '.' :: p2.1 ++ '.' :: p3.1)

/-- `re.search` of the Address pattern over the server config. -/
def searchAddress (conf : List Str) : Option Str :=
  firstSome (searchLineWith matchAddressAt) conf

/-- `AllowedIPs\s*=\s*<network>\.(\d+)/32` anchored at the current position
(the network is spliced in literally, dots escaped); returns group 1 as a
number, as `int(ip)` reads it. -/
def matchAllowedAt (p : Str) (s : Str) : Option Nat :=
  match stripLit (str "AllowedIPs") s with
  | none => none
  | some s1 =>
  match expectChar '=' (dropWs s1) with
  | none => none
  | some s2 =>
  match stripLit p (dropWs s2) with
  | none => none
  | some s3 =>
  match expectChar '.' s3 with
  | none => none
  | some s4 =>
  let d := takeDigits s4
  if d.1 = [] then none else
  match stripLit (str "/32") d.2 with
  | none => none
  | some _ => some (digitsVal d.1)

def lineHost (p : Str) (l : Str) : Option Nat := searchLineWith (matchAllowedAt p) l

/-- `re.findall` of the AllowedIPs pattern: the parsed host numbers of all
peer entries under network `p`, in document order. -/
def allowedHosts (p : Str) (conf : List Str) : List Nat :=
  conf.filterMap (lineHost p)

/-- `^\s*<param>\s*=\s*(\d+)` with `re.MULTILINE`: anchored at the start of a
line, leading whitespace allowed. -/
def matchParamAt (param : Str) (s : Str) : Option Str :=
  match stripLit param (dropWs s) with
  | none => none
  | some s1 =>
  match expectChar '=' (dropWs s1) with
  | none => none
  | some s2 =>
  let d := takeDigits (dropWs s2)
  if d.1 = [] then none else some d.1

def paramLine (param : Str) (l : Str) : Option Str := matchParamAt param l

/-- The script's obfuscation-parameter defaults dictionary. -/
def obfDefaults : List (Str × Str) :=
  [(str "Jc", str "4"), (str "Jmin", str "50"), (str "Jmax", str "1000"),
   (str "S1", str "0"), (str "S2", str "0"), (str "S3", str "0"), (str "S4", str "0"),
   (str "H1", str "1"), (str "H2", str "2"), (str "H3", str "3"), (str "H4", str "4"),
   (str "I1", str "0"), (str "I2", str "0"), (str "I3", str "0"), (str "I4", str "0"),
   (str "I5", str "0")]

def obfDefault (param : Str) : Str :=
  match obfDefaults.find? (fun e => e.1 = param) with
  | some e => e.2
  | none => str "0"

/-- Value of an obfuscation parameter: first match in the config, else the
documented default (absence is not an error). -/
def extractObf (conf : List Str) (param : Str) : Str :=
  match firstSome (paramLine param) conf with
  | some v => v
  | none => obfDefault param

/-- `PrivateKey\s*=\s*(\S+)` anchored at the current position. -/
def matchPrivAt (s : Str) : Option Str :=
  match stripLit (str "PrivateKey") s with
  | none => none
  | some s1 =>
  match expectChar '=' (dropWs s1) with
  | none => none
  | some s2 =>
  let v := takeNonWs (dropWs s2)
  if v.1 = [] then none else some v.1

/-- First `PUBLIC_KEY=` line of `server.keys`, value after the first `=`,
stripped; empty if no such line. -/
def afterFirstEq : Str → Option Str
  | [] => none
  | c :: r => if c = '=' then some r else afterFirstEq r

def serverPublicFrom (ls : List Str) : Str :=
  match ls.find? (fun l => (stripLit (str "PUBLIC_KEY=") (trimWs l)).isSome) with
  | some l =>
    match afterFirstEq l with
    | some v => trimWs v
    | none => []
  | none => []

/-! ## The enrollment pipeline -/

/-- Raw stdout of the shelled-out `awg` invocations; the model applies the
`.strip()` performed by `run_cmd_with_input`. `serverPubDerived` is the
output of `awg pubkey` on the server private key (used only on the fallback
path). -/
structure KeyOutputs where
  genkeyOut : Str
  pubkeyOut : Str
  genpskOut : Str
  serverPubDerived : Str
deriving DecidableEq

/-- Environment variables read via `os.getenv`, `none` when unset. -/
structure Env where
  SERVER_IP : Option Str
  LISTEN_PORT : Option Str
  DNS : Option Str
deriving DecidableEq

/-- The filesystem state the script reads and writes:
`serverConf` is the line list of `server.conf`; `serverKeysFile` the line
list of `server.keys` when that file exists; `clientDirs` the names under
`clients/`; `clientFiles` the per-client files as
(client name, file name, content lines). -/
structure World where
  serverConfExists : Bool
  serverConf : List Str
  serverKeysFile : Option (List Str)
  clientDirs : List Str
  clientFiles : List (Str × Str × List Str)
deriving DecidableEq

/-- Exit disposition of one invocation.  All non-`success` outcomes are
`sys.exit(1)`; they are distinguished here by the error message printed,
matching the spec's error taxonomy (`noServerConfig` = NotInitializedError,
`duplicateClient` = DuplicateClientError, `parseError` = ParseError,
`keyFormatError` = KeyFormatError, `serverKeyError` = the "Cannot find
server private key" exit). -/
inductive EnrollOutcome where
  | noServerConfig
  | duplicateClient
  | parseError
  | keyFormatError
  | serverKeyError
  | success (ip : Str) (ipNum : Nat) (clientConf : List Str) (peerBlock : List Str)
deriving DecidableEq

/-- `open(path, 'w')` inside a client directory: replaces any previous file
of that name. -/
def writeClientFile (w : World) (c f : Str) (content : List Str) : World :=
  { w with clientFiles :=
      w.clientFiles.filter (fun e => !(e.1 = c && e.2.1 = f)) ++ [(c, f, content)] }

/-- `max(int(ip) for ip in existing_ips)` over a nonempty list (0 on the
empty list, which the script never asks for). -/
def maxList (l : List Nat) : Nat := l.foldl max 0

/-- The address allocation of lines 74-78: `max(last_ip + 1, 2)` when any
peer exists, else 2. -/
def nextHost (used : List Nat) : Nat :=
  match used with
  | [] => 2
  | _ :: _ => max (maxList used + 1) 2

/-- The keys checked and written for the client (after `.strip()`). -/
def clientKeysOf (k : KeyOutputs) : Str × Str × Str :=
  (trimWs k.genkeyOut, trimWs k.pubkeyOut, trimWs k.genpskOut)

/-- Resolution of the server public key (lines 121-141): read from
`server.keys` when present and plausible, else derived from the PrivateKey
found in the server config; `none` when that also fails. -/
def resolveServerPub (keysFile : Option (List Str)) (conf : List Str) (k : KeyOutputs) :
    Option Str :=
  let fromKeys :=
    match keysFile with
    | some ls => serverPublicFrom ls
    | none => []
  if fromKeys = [] ∨ fromKeys.length ≠ 44 then
    match firstSome (searchLineWith matchPrivAt) conf with
    | none => none
    | some _ => some (trimWs k.serverPubDerived)
  else some fromKeys

/-- The client configuration document rendered at lines 163-186.  Note that
of the seventeen extracted obfuscation parameters only Jc, Jmin, Jmax,
S1-S4 and H1-H4 are rendered; I1-I5 are not. -/
def clientConfLines (priv ip dns serverPub psk serverIp port : Str)
    (obf : Str → Str) : List Str :=
  [str "[Interface]",
   str "PrivateKey = " ++ priv,
   str "Address = " ++ ip ++ str "/32",
   str "DNS = " ++ dns,
   str "MTU = 1280",
   str "Jc = " ++ obf (str "Jc"),
   str "Jmin = " ++ obf (str "Jmin"),
   str "Jmax = " ++ obf (str "Jmax"),
   str "S1 = " ++ obf (str "S1"),
   str "S2 = " ++ obf (str "S2"),
   str "S3 = " ++ obf (str "S3"),
   str "S4 = " ++ obf (str "S4"),
   str "H1 = " ++ obf (str "H1"),
   str "H2 = " ++ obf (str "H2"),
   str "H3 = " ++ obf (str "H3"),
   str "H4 = " ++ obf (str "H4"),
   str "",
   str "[Peer]",
   str "PublicKey = " ++ serverPub,
   str "PresharedKey = " ++ psk,
   str "Endpoint = " ++ serverIp ++ ':' :: port,
   str "AllowedIPs = 0.0.0.0/0, ::/0",
   str "PersistentKeepalive = 25"]

/-- The peer block appended to `server.conf` at lines 194-200 (the leading
newline of the f-string becomes the leading empty line). -/
def peerBlockLines (name pub psk ip : Str) : List Str :=
  [str "",
   str "[Peer]",
   str "# Client: " ++ name,
   str "PublicKey = " ++ pub,
   str "PresharedKey = " ++ psk,
   str "AllowedIPs = " ++ ip ++ str "/32"]

/-- The body of the `try:` block (lines 53-237), entered with the exclusive
lock held.  Its first action is `os.makedirs(client_dir, mode=0o700,
exist_ok=True)`: the directory is created if absent, and an existing
directory is silently accepted — there is no second duplicate check. -/
def criticalSection (w : World) (name : Str) (k : KeyOutputs) (env : Env) :
    EnrollOutcome × World :=
  let w1 : World :=
    { w with clientDirs :=
        if name ∈ w.clientDirs then w.clientDirs else w.clientDirs ++ [name] }
  let conf := w1.serverConf
  match searchAddress conf with
  | none => (.parseError, w1)
  | some vpnNetwork =>
    let existing := allowedHosts vpnNetwork conf
    let clientIpNum := nextHost existing
    let clientIp := vpnNetwork ++ '.' :: natToStr clientIpNum
    let ck := clientKeysOf k
    if ck.1.length = 44 ∧ ck.2.1.length = 44 ∧ ck.2.2.length = 44 then
      let w2 := writeClientFile w1 name (str "privatekey") [ck.1]
      let w3 := writeClientFile w2 name (str "publickey") [ck.2.1]
      let w4 := writeClientFile w3 name (str "presharedkey") [ck.2.2]
      match resolveServerPub w4.serverKeysFile conf k with
      | none => (.serverKeyError, w4)
      | some serverPublic =>
        let serverIp := env.SERVER_IP.getD (str "YOUR_SERVER_IP")
        let listenPort := env.LISTEN_PORT.getD (str "51820")
        let dns := env.DNS.getD (str "1.1.1.1")
        let cconf := clientConfLines ck.1 clientIp dns serverPublic ck.2.2
          serverIp listenPort (extractObf conf)
        let w5 := writeClientFile w4 name (name ++ str ".conf") cconf
        let pb := peerBlockLines name ck.2.1 ck.2.2 clientIp
        let w6 := { w5 with serverConf := w5.serverConf ++ pb }
        (.success clientIp clientIpNum cconf pb, w6)
    else (.keyFormatError, w1)

/-- One whole invocation of `main` on client `name`: the pre-lock
precondition checks (lines 37-45), then the locked critical section.  The
live-interface sync (lines 204-232) performs no durable mutation and cannot
fail the invocation (`check=False`), so it has no footprint here. -/
def addClient (w : World) (name : Str) (k : KeyOutputs) (env : Env) :
    EnrollOutcome × World :=
  if w.serverConfExists = false then (.noServerConfig, w)
  else if name ∈ w.clientDirs then (.duplicateClient, w)
  else criticalSection w name k env

/-! ## Outcome projections -/

def outcomeIsSuccess : EnrollOutcome → Bool
  | .success _ _ _ _ => true
  | _ => false

def outcomeIp : EnrollOutcome → Option Str
  | .success ip _ _ _ => some ip
  | _ => none

def outcomeIpNum : EnrollOutcome → Option Nat
  | .success _ n _ _ => some n
  | _ => none

def outcomeClientConf : EnrollOutcome → Option (List Str)
  | .success _ _ c _ => some c
  | _ => none

def outcomePeerBlock : EnrollOutcome → Option (List Str)
  | .success _ _ _ p => some p
  | _ => none

/-! ## Parse-back of rendered documents

These are spec-side parsers, used to state the round-trip claims: they read
a field value back out of a rendered document. -/

/-- `<field>\s*=\s*` anchored at the start of a line; returns the value. -/
def fieldValue (field : Str) (l : Str) : Option Str :=
  match stripLit field l with
  | none => none
  | some s1 =>
  match expectChar '=' (dropWs s1) with
  | none => none
  | some s2 => some (dropWs s2)

/-- The lines strictly after the first line equal to `tag`. -/
def afterTag (tag : Str) : List Str → List Str
  | [] => []
  | l :: ls => if l = tag then ls else afterTag tag ls

/-- First `field = value` line inside the `[Peer]` block. -/
def peerField (doc : List Str) (field : Str) : Option Str :=
  firstSome (fieldValue field) (afterTag (str "[Peer]") doc)

/-- First `field = value` line anywhere in the document (used for interface
block fields, which all precede the `[Peer]` tag). -/
def interfaceField (doc : List Str) (field : Str) : Option Str :=
  firstSome (fieldValue field) doc

/-- A sequence of enrollments (lock-serialized, hence consecutive): the
assigned host numbers together with the final world, `none` when any
invocation fails. -/
def runAll (env : Env) : World → List (Str × KeyOutputs) → Option (List Nat × World)
  | w, [] => some ([], w)
  | w, (nm, ks) :: rest =>
    match addClient w nm ks env with
    | (.success _ n _ _, w') =>
      match runAll env w' rest with
      | some (l, wf) => some (n :: l, wf)
      | none => none
    | _ => none

/-! ## Concrete fixtures (used by witnesses and counterexamples) -/

/-- A 44-character value of the shape an encoded 32-byte key has. -/
def k44 (c : Char) : Str := List.replicate 43 c ++ ['=']

def ksGood : KeyOutputs :=
  { genkeyOut := k44 'D', pubkeyOut := k44 'C', genpskOut := k44 'P',
    serverPubDerived := k44 'V' }

/-- Key outputs whose preshared key has the wrong encoded length. -/
def ksBadPsk : KeyOutputs := { ksGood with genpskOut := str "short" }

def envDef : Env :=
  { SERVER_IP := some (str "203.0.113.5"), LISTEN_PORT := none, DNS := none }

/-- An initialized gateway: address 10.0.0.1/24, no peers yet. -/
def wBase : World :=
  { serverConfExists := true,
    serverConf := [str "[Interface]", str "Address = 10.0.0.1/24",
                   str "PrivateKey = " ++ k44 'Q'],
    serverKeysFile := some [str "PUBLIC_KEY=" ++ k44 'S'],
    clientDirs := [], clientFiles := [] }

/-- The spec's scenario: gateway 10.0.0.1/24 with one peer at 10.0.0.2/32. -/
def wScen : World :=
  { wBase with serverConf := wBase.serverConf ++
      [str "", str "[Peer]", str "PublicKey = " ++ k44 'O',
       str "AllowedIPs = 10.0.0.2/32"] }

/-- The scenario world with per-client storage for `alice` already present. -/
def wDup : World := { wScen with clientDirs := [str "alice"] }

/-- Gateway whose highest allocated peer host number is 255: the /24 host
range is exhausted. -/
def wEx : World :=
  { wBase with serverConf := wBase.serverConf ++
      [str "", str "[Peer]", str "PublicKey = " ++ k44 'O',
       str "AllowedIPs = 10.0.0.255/32"] }

/-- Gateway whose config has no parsable Address line. -/
def wNoAddr : World := { wBase with serverConf := [str "[Interface]"] }

/-- Gateway config that sets the obfuscation parameter I1 to 7. -/
def wObf : World :=
  { wBase with serverConf := wBase.serverConf ++ [str "I1 = 7"] }

/-- `headNotDig r` holds when `r` does not start with a digit. -/
def headNotDig : Str → Prop
  | [] => True
  | c :: _ => isDig c = false

/-- `SeqOK s l` : `l` is the run `s, s+1, s+2, ...`. -/
def SeqOK : Nat → List Nat → Prop
  | _, [] => True
  | s, x :: xs => x = s ∧ SeqOK (s + 1) xs

/-- The step's client name and key values do not themselves contain an
AllowedIPs entry under network `p` (true of every well-formed name and
encoded key, since the network contains a dot and keys do not). -/
abbrev CleanStep (p : Str) (s : Str × KeyOutputs) : Prop :=
  lineHost p (str "# Client: " ++ s.1) = none ∧
  lineHost p (str "PublicKey = " ++ trimWs s.2.pubkeyOut) = none ∧
  lineHost p (str "PresharedKey = " ++ trimWs s.2.genpskOut) = none

/-! ## Shared lemmas -/

/-- An invocation for a name with existing per-client storage stops at the
pre-lock duplicate check and leaves the world untouched. -/
theorem addClient_of_mem {w : World} {nm : Str} (k : KeyOutputs) (env : Env)
    (hinit : w.serverConfExists = true) (hdup : nm ∈ w.clientDirs) :
    addClient w nm k env = (.duplicateClient, w) := by
  simp [addClient, hinit, hdup]

/-- Inversion of a successful invocation: what the success branch of the
critical section establishes. -/
theorem success_inv {w : World} {nm : Str} {k : KeyOutputs} {env : Env}
    {ip : Str} {n : Nat} {cc pb : List Str}
    (hs : (addClient w nm k env).1 = .success ip n cc pb) :
    ∃ p sp,
      w.serverConfExists = true ∧
      nm ∉ w.clientDirs ∧
      searchAddress w.serverConf = some p ∧
      n = nextHost (allowedHosts p w.serverConf) ∧
      ip = p ++ '.' :: natToStr n ∧
      (trimWs k.genkeyOut).length = 44 ∧
      (trimWs k.pubkeyOut).length = 44 ∧
      (trimWs k.genpskOut).length = 44 ∧
      resolveServerPub w.serverKeysFile w.serverConf k = some sp ∧
      pb = peerBlockLines nm (trimWs k.pubkeyOut) (trimWs k.genpskOut) ip ∧
      cc = clientConfLines (trimWs k.genkeyOut) ip (env.DNS.getD (str "1.1.1.1")) sp
             (trimWs k.genpskOut) (env.SERVER_IP.getD (str "YOUR_SERVER_IP"))
             (env.LISTEN_PORT.getD (str "51820")) (extractObf w.serverConf) ∧
      (addClient w nm k env).2.serverConf = w.serverConf ++ pb ∧
      (addClient w nm k env).2.serverConfExists = true ∧
      nm ∈ (addClient w nm k env).2.clientDirs := by
  cases hex : w.serverConfExists with
  | false => simp [addClient, hex] at hs
  | true =>
  by_cases hmem : nm ∈ w.clientDirs
  · simp [addClient, hex, hmem] at hs
  have hred : addClient w nm k env = criticalSection w nm k env := by
    simp [addClient, hex, hmem]
  rw [hred] at hs ⊢
  rw [criticalSection] at hs ⊢
  cases haddr : searchAddress w.serverConf with
  | none =>
    simp only [haddr] at hs
    simp at hs
  | some p =>
  simp only [haddr] at hs ⊢
  by_cases hlen : (trimWs k.genkeyOut).length = 44 ∧ (trimWs k.pubkeyOut).length = 44 ∧
      (trimWs k.genpskOut).length = 44
  case neg =>
    simp only [clientKeysOf, if_neg hlen] at hs
    simp at hs
  simp only [clientKeysOf, if_pos hlen] at hs ⊢
  cases hres : resolveServerPub w.serverKeysFile w.serverConf k with
  | none =>
    simp only [writeClientFile, hres] at hs
    simp at hs
  | some sp =>
  simp only [writeClientFile, hres] at hs ⊢
  simp only [Prod.fst, EnrollOutcome.success.injEq] at hs
  obtain ⟨hip, hnum, hcc, hpb⟩ := hs
  subst hnum
  subst hip
  subst hcc
  subst hpb
  refine ⟨p, sp, ?_, ?_, ?_, ?_, ?_, ?_, ?_, ?_, ?_, ?_, ?_, ?_, ?_, ?_⟩ <;>
    simp [hex, hmem, haddr, hres, hlen.1, hlen.2.1, hlen.2.2, writeClientFile]

/-! ## Claims -/

/-- Claim C5: for every client name whose per-client storage directory
already exists at invocation (on an initialized gateway), enrollment fails
with `DuplicateClientError` and the whole world — in particular the durable
server configuration — is byte-for-byte unchanged. -/
theorem claim5_duplicate_fails_without_mutation {w : World} {nm : Str}
    (k : KeyOutputs) (env : Env)
    (hinit : w.serverConfExists = true) (hdup : nm ∈ w.clientDirs) :
    (addClient w nm k env).1 = .duplicateClient ∧
    (addClient w nm k env).2 = w ∧
    (addClient w nm k env).2.serverConf = w.serverConf := by
  rw [addClient_of_mem k env hinit hdup]
  exact ⟨rfl, rfl, rfl⟩

/-- Witness for C5 at a concrete world with `alice` already provisioned. -/
theorem claim5_witness :
    (wDup.serverConfExists = true ∧ str "alice" ∈ wDup.clientDirs) ∧
    (addClient wDup (str "alice") ksGood envDef).1 = .duplicateClient ∧
    (addClient wDup (str "alice") ksGood envDef).2 = wDup ∧
    (addClient wDup (str "alice") ksGood envDef).2.serverConf = wDup.serverConf :=
  ⟨⟨by decide, by decide⟩,
   claim5_duplicate_fails_without_mutation ksGood envDef (by decide) (by decide)⟩

/-- Claim C1: the spec mandates a second duplicate-existence check after
lock acquisition; the code has none — the critical section (lines 53-237)
begins with `os.makedirs(client_dir, exist_ok=True)` and can never report a
duplicate client, and with per-client storage for `alice` created between the
pre-lock check and lock acquisition the critical section still succeeds.
The claim is therefore wrong about the code; the spec states the re-check is
"a design requirement, not optional", so this is recorded as a code bug. -/
theorem claim1_no_postlock_duplicate_check :
    (∀ (w : World) (nm : Str) (k : KeyOutputs) (env : Env),
      (criticalSection w nm k env).1 ≠ .duplicateClient) ∧
    str "alice" ∈ wDup.clientDirs ∧
    outcomeIsSuccess (criticalSection wDup (str "alice") ksGood envDef).1 = true := by
  refine ⟨?_, by decide, by decide⟩
  intro w nm k env
  rw [criticalSection]
  cases searchAddress w.serverConf with
  | none => simp
  | some p =>
    simp only []
    split
    · cases hres : resolveServerPub w.serverKeysFile w.serverConf k with
      | none => simp [hres, writeClientFile]
      | some sp => simp [hres, writeClientFile]
    · simp

/-- Claim C9: the computed next host number is never checked against the
valid host range of the mask. With gateway 10.0.0.1/24 and a peer at
10.0.0.255/32 the enrollment succeeds and assigns 10.0.0.256 — outside the
/24 host range (1..254) and not even a valid octet — and appends that
address to the durable configuration, instead of failing with
`AddressSpaceExhaustedError`.  The spec itself notes the reference behavior
does not enforce the check, so this is recorded as a code bug. -/
theorem claim9_no_exhaustion_check :
    outcomeIsSuccess (addClient wEx (str "bob") ksGood envDef).1 = true ∧
    outcomeIpNum (addClient wEx (str "bob") ksGood envDef).1 = some 256 ∧
    outcomeIp (addClient wEx (str "bob") ksGood envDef).1 = some (str "10.0.0.256") ∧
    str "AllowedIPs = 10.0.0.256/32" ∈ (addClient wEx (str "bob") ksGood envDef).2.serverConf ∧
    254 < 256 := by
  refine ⟨by decide, by decide, by decide, by decide, by decide⟩

/-- Claim C6: each of the three generated keys must have encoded length 44;
whenever any of the three (stripped) lengths differs, the invocation reaching
the key-validation step fails with `KeyFormatError`, writes no client file
and appends no peer record. -/
theorem claim6_key_length_validated {w : World} {nm : Str} {k : KeyOutputs}
    {env : Env} {p : Str}
    (hinit : w.serverConfExists = true) (hnew : nm ∉ w.clientDirs)
    (haddr : searchAddress w.serverConf = some p)
    (hbad : ¬ ((trimWs k.genkeyOut).length = 44 ∧ (trimWs k.pubkeyOut).length = 44 ∧
               (trimWs k.genpskOut).length = 44)) :
    (addClient w nm k env).1 = .keyFormatError ∧
    (addClient w nm k env).2.clientFiles = w.clientFiles ∧
    (addClient w nm k env).2.serverConf = w.serverConf := by
  have hred : addClient w nm k env = criticalSection w nm k env := by
    simp [addClient, hinit, hnew]
  rw [hred, criticalSection]
  simp only [haddr, clientKeysOf]
  rw [if_neg hbad]
  exact ⟨rfl, rfl, rfl⟩

/-- Witness for C6: a preshared key of the wrong length is rejected. -/
theorem claim6_witness :
    ¬ ((trimWs ksBadPsk.genkeyOut).length = 44 ∧ (trimWs ksBadPsk.pubkeyOut).length = 44 ∧
       (trimWs ksBadPsk.genpskOut).length = 44) ∧
    (addClient wBase (str "alice") ksBadPsk envDef).1 = .keyFormatError ∧
    (addClient wBase (str "alice") ksBadPsk envDef).2.clientFiles = wBase.clientFiles ∧
    (addClient wBase (str "alice") ksBadPsk envDef).2.serverConf = wBase.serverConf :=
  ⟨by decide,
   claim6_key_length_validated (p := str "10.0.0") (by decide) (by decide) (by decide)
     (by decide)⟩

/-- Claim C10: the per-client directory is created inside the critical
section before the config is parsed and before keys are validated, so a
parse failure or key-length failure leaves the directory behind — created,
with no files in it, the durable configuration untouched — and every
subsequent enrollment attempt for the same name fails the duplicate
check. -/
theorem claim10_failure_leaves_empty_dir {w : World} {nm : Str} {k : KeyOutputs}
    {env : Env}
    (hinit : w.serverConfExists = true) (hnew : nm ∉ w.clientDirs)
    (hfail : (addClient w nm k env).1 = .parseError ∨
             (addClient w nm k env).1 = .keyFormatError) :
    nm ∈ (addClient w nm k env).2.clientDirs ∧
    (addClient w nm k env).2.clientFiles = w.clientFiles ∧
    (addClient w nm k env).2.serverConf = w.serverConf ∧
    ∀ (k' : KeyOutputs) (env' : Env),
      addClient (addClient w nm k env).2 nm k' env' =
        (.duplicateClient, (addClient w nm k env).2) := by
  have hred : addClient w nm k env = criticalSection w nm k env := by
    simp [addClient, hinit, hnew]
  rw [hred] at hfail ⊢
  rw [criticalSection] at hfail ⊢
  cases haddr : searchAddress w.serverConf with
  | none =>
    simp only [haddr]
    refine ⟨by simp [hnew], by simp, by simp, ?_⟩
    intro k' env'
    apply addClient_of_mem k' env' (by exact hinit)
    simp [hnew]
  | some p =>
    simp only [haddr] at hfail ⊢
    by_cases hlen : ((clientKeysOf k).1.length = 44 ∧ ((clientKeysOf k).2.1.length = 44 ∧
        (clientKeysOf k).2.2.length = 44))
    · exfalso
      rw [if_pos hlen] at hfail
      cases hres : resolveServerPub w.serverKeysFile w.serverConf k with
      | none => simp [hres, writeClientFile] at hfail
      | some sp => simp [hres, writeClientFile] at hfail
    · rw [if_neg hlen]
      refine ⟨by simp [hnew], by simp, by simp, ?_⟩
      intro k' env'
      apply addClient_of_mem k' env' (by exact hinit)
      simp [hnew]

/-- Witness for C10: an unparsable tunnel-network line (`wNoAddr`) fails
after the directory for `carol` is created; re-running for `carol` then
fails the duplicate check. -/
theorem claim10_witness :
    ((addClient wNoAddr (str "carol") ksGood envDef).1 = .parseError ∨
     (addClient wNoAddr (str "carol") ksGood envDef).1 = .keyFormatError) ∧
    str "carol" ∈ (addClient wNoAddr (str "carol") ksGood envDef).2.clientDirs ∧
    (addClient wNoAddr (str "carol") ksGood envDef).2.clientFiles = wNoAddr.clientFiles ∧
    (addClient wNoAddr (str "carol") ksGood envDef).2.serverConf = wNoAddr.serverConf ∧
    ∀ (k' : KeyOutputs) (env' : Env),
      addClient (addClient wNoAddr (str "carol") ksGood envDef).2 (str "carol") k' env' =
        (.duplicateClient, (addClient wNoAddr (str "carol") ksGood envDef).2) :=
  ⟨Or.inl (by decide),
   claim10_failure_leaves_empty_dir (by decide) (by decide) (Or.inl (by decide))⟩

/-- Claim C2: when the gateway Address line yields network `p`, a successful
enrollment assigns host number `max(maxUsed + 1, 2)` if any peer AllowedIPs
entry under `p` exists and 2 otherwise, and the assigned address is
`p.<hostNumber>`.  The computation is a pure function of the configuration
(no randomness, no reuse). -/
theorem claim2_next_address {w : World} {nm : Str} {k : KeyOutputs} {env : Env}
    {ip : Str} {n : Nat} {p : Str}
    (haddr : searchAddress w.serverConf = some p)
    (hip : outcomeIp (addClient w nm k env).1 = some ip)
    (hnum : outcomeIpNum (addClient w nm k env).1 = some n) :
    (allowedHosts p w.serverConf = [] → n = 2) ∧
    (allowedHosts p w.serverConf ≠ [] →
      n = max (maxList (allowedHosts p w.serverConf) + 1) 2) ∧
    ip = p ++ '.' :: natToStr n := by
  cases hr : (addClient w nm k env).1 with
  | success ip' n' cc pb =>
    rw [hr] at hip hnum
    simp only [outcomeIp, outcomeIpNum, Option.some.injEq] at hip hnum
    subst hip hnum
    obtain ⟨p', sp, -, -, haddr', hn, hip', -⟩ := success_inv hr
    rw [haddr] at haddr'
    obtain rfl : p = p' := by injection haddr'
    refine ⟨?_, ?_, hip'⟩
    · intro hempty
      rw [hn, hempty]
      rfl
    · intro hne
      rw [hn]
      cases hu : allowedHosts p w.serverConf with
      | nil => exact absurd hu hne
      | cons a u => rfl
  | noServerConfig => rw [hr] at hip; exact absurd hip (by simp [outcomeIp])
  | duplicateClient => rw [hr] at hip; exact absurd hip (by simp [outcomeIp])
  | parseError => rw [hr] at hip; exact absurd hip (by simp [outcomeIp])
  | keyFormatError => rw [hr] at hip; exact absurd hip (by simp [outcomeIp])
  | serverKeyError => rw [hr] at hip; exact absurd hip (by simp [outcomeIp])

/-- Witness for C2, which is exactly the spec's scenario: gateway
10.0.0.1/24 with one peer at 10.0.0.2/32; enrolling `alice` assigns
10.0.0.3. -/
theorem claim2_witness :
    (searchAddress wScen.serverConf = some (str "10.0.0") ∧
     outcomeIp (addClient wScen (str "alice") ksGood envDef).1 = some (str "10.0.0.3") ∧
     outcomeIpNum (addClient wScen (str "alice") ksGood envDef).1 = some 3) ∧
    (allowedHosts (str "10.0.0") wScen.serverConf ≠ [] →
      3 = max (maxList (allowedHosts (str "10.0.0") wScen.serverConf) + 1) 2) :=
  ⟨⟨by decide, by decide, by decide⟩,
   (@claim2_next_address wScen (str "alice") ksGood envDef (str "10.0.0.3") 3 (str "10.0.0")
     (by decide) (by decide) (by decide)).2.1⟩

/-- Claim C7: a successful enrollment changes the durable server
configuration only by appending the new peer block at the end: the new
content is exactly the old content followed by the rendered block, so all
prior content is preserved verbatim as a prefix and no existing entry is
touched. -/
theorem claim7_append_only {w : World} {nm : Str} {k : KeyOutputs} {env : Env}
    (hs : outcomeIsSuccess (addClient w nm k env).1 = true) :
    ∃ pb, outcomePeerBlock (addClient w nm k env).1 = some pb ∧
      (addClient w nm k env).2.serverConf = w.serverConf ++ pb ∧
      ∃ ip, pb = peerBlockLines nm (trimWs k.pubkeyOut) (trimWs k.genpskOut) ip := by
  cases hr : (addClient w nm k env).1 with
  | success ip n cc pb =>
    obtain ⟨p, sp, -, -, -, -, -, -, -, -, -, hpb, -, hconf, -⟩ := success_inv hr
    refine ⟨pb, ?_, hconf, ip, hpb⟩
    rfl
  | noServerConfig => rw [hr] at hs; exact absurd hs (by simp [outcomeIsSuccess])
  | duplicateClient => rw [hr] at hs; exact absurd hs (by simp [outcomeIsSuccess])
  | parseError => rw [hr] at hs; exact absurd hs (by simp [outcomeIsSuccess])
  | keyFormatError => rw [hr] at hs; exact absurd hs (by simp [outcomeIsSuccess])
  | serverKeyError => rw [hr] at hs; exact absurd hs (by simp [outcomeIsSuccess])

/-- Witness for C7 at the scenario world. -/
theorem claim7_witness :
    outcomeIsSuccess (addClient wScen (str "alice") ksGood envDef).1 = true ∧
    ∃ pb, outcomePeerBlock (addClient wScen (str "alice") ksGood envDef).1 = some pb ∧
      (addClient wScen (str "alice") ksGood envDef).2.serverConf = wScen.serverConf ++ pb ∧
      ∃ ip, pb = peerBlockLines (str "alice") (trimWs ksGood.pubkeyOut)
                   (trimWs ksGood.genpskOut) ip :=
  ⟨by decide, claim7_append_only (by decide)⟩

/-! ## Whitespace and shape lemmas -/

theorem dropWs_head_not_ws {l : Str} {c : Char} {r : Str}
    (h : dropWs l = c :: r) : isWs c = false := by
  induction l with
  | nil => simp [dropWs] at h
  | cons a t ih =>
    rw [dropWs] at h
    by_cases ha : isWs a
    · rw [if_pos ha] at h; exact ih h
    · rw [if_neg ha] at h
      injection h with h1 _
      subst h1
      simpa using ha

theorem dropWs_suffix (l : Str) : ∃ pre, l = pre ++ dropWs l := by
  induction l with
  | nil => exact ⟨[], rfl⟩
  | cons a t ih =>
    rw [dropWs]
    by_cases ha : isWs a
    · rw [if_pos ha]
      obtain ⟨pre, hp⟩ := ih
      exact ⟨a :: pre, by rw [List.cons_append, ← hp]⟩
    · rw [if_neg ha]
      exact ⟨[], rfl⟩

theorem dropWs_eq_self {l : Str}
    (h : ∀ c r, l = c :: r → isWs c = false) : dropWs l = l := by
  cases l with
  | nil => rfl
  | cons a t =>
    rw [dropWs, if_neg]
    simp [h a t rfl]

theorem dropWs_trimWs (l : Str) : dropWs (trimWs l) = trimWs l := by
  apply dropWs_eq_self
  intro c r h
  unfold trimWs at h
  have hvne : dropWs (dropWs l).reverse ≠ [] := by
    intro he
    rw [he] at h
    simp at h
  have hlast : (dropWs (dropWs l).reverse).getLast? = some c := by
    have h2 := congrArg List.head? h
    rwa [List.head?_reverse] at h2
  obtain ⟨pre, hpre⟩ := dropWs_suffix (dropWs l).reverse
  have h2 : (dropWs l).reverse.getLast? = some c := by
    rw [hpre, List.getLast?_append_of_ne_nil pre hvne, hlast]
  have h3 : (dropWs l).head? = some c := by
    rwa [List.getLast?_reverse] at h2
  cases hu : dropWs l with
  | nil => rw [hu] at h3; simp at h3
  | cons a t =>
    rw [hu] at h3
    simp only [List.head?_cons, Option.some.injEq] at h3
    subst h3
    exact dropWs_head_not_ws hu

theorem serverPublicFrom_dropWs (ls : List Str) :
    dropWs (serverPublicFrom ls) = serverPublicFrom ls := by
  rw [serverPublicFrom]
  cases hf : ls.find? (fun l => (stripLit (str "PUBLIC_KEY=") (trimWs l)).isSome) with
  | none => rfl
  | some l =>
    simp only []
    cases ha : afterFirstEq l with
    | none => simp [ha, dropWs]
    | some v =>
      simp only [ha]
      exact dropWs_trimWs v

theorem resolveServerPub_dropWs {ks : Option (List Str)} {conf : List Str}
    {k : KeyOutputs} {sp : Str}
    (h : resolveServerPub ks conf k = some sp) : dropWs sp = sp := by
  rw [resolveServerPub.eq_def] at h
  simp only [] at h
  split at h
  · cases hf : firstSome (searchLineWith matchPrivAt) conf with
    | none => rw [hf] at h; exact absurd h (by simp)
    | some x =>
      rw [hf] at h
      injection h with h1
      rw [← h1]
      exact dropWs_trimWs _
  · injection h with h1
    rw [← h1]
    cases ks with
    | none => rfl
    | some ls => exact serverPublicFrom_dropWs ls

theorem takeDigits_head {s : Str} {c : Char} {r : Str}
    (h : (takeDigits s).1 = c :: r) : isDig c = true := by
  cases s with
  | nil => simp [takeDigits] at h
  | cons a t =>
    rw [takeDigits] at h
    by_cases ha : isDig a
    · rw [if_pos ha] at h
      simp only [List.cons.injEq] at h
      obtain ⟨rfl, -⟩ := h
      exact ha
    · rw [if_neg ha] at h
      simp at h

theorem searchLineWith_some {α : Type} {m : Str → Option α} {l : Str} {v : α}
    (h : searchLineWith m l = some v) : ∃ s, m s = some v := by
  induction l with
  | nil => exact ⟨[], h⟩
  | cons c r ih =>
    rw [searchLineWith] at h
    cases hm : m (c :: r) with
    | some u =>
      rw [hm] at h
      injection h with h1
      exact ⟨c :: r, by rw [hm, h1]⟩
    | none =>
      rw [hm] at h
      exact ih h

theorem firstSome_some {α : Type} {f : Str → Option α} {ls : List Str} {v : α}
    (h : firstSome f ls = some v) : ∃ l, l ∈ ls ∧ f l = some v := by
  induction ls with
  | nil => simp [firstSome] at h
  | cons l t ih =>
    rw [firstSome] at h
    cases hf : f l with
    | some u =>
      rw [hf] at h
      injection h with h1
      exact ⟨l, List.mem_cons_self l t, by rw [hf, h1]⟩
    | none =>
      rw [hf] at h
      obtain ⟨l', hm, hl'⟩ := ih h
      exact ⟨l', List.mem_cons_of_mem l hm, hl'⟩

theorem matchAddressAt_head {s p : Str} (h : matchAddressAt s = some p) :
    ∃ c r, p = c :: r ∧ isDig c = true := by
  simp only [matchAddressAt] at h
  cases h1 : stripLit (str "Address") s with
  | none => simp [h1] at h
  | some s1 =>
  simp only [h1] at h
  cases h2 : expectChar '=' (dropWs s1) with
  | none => simp [h2] at h
  | some s2 =>
  simp only [h2] at h
  cases hA : (takeDigits (dropWs s2)).1 with
  | nil => simp [hA] at h
  | cons c cr =>
  simp only [hA] at h
  rw [if_neg (by simp)] at h
  have hd : isDig c = true := takeDigits_head hA
  iterate 8 (split at h; · simp at h)
  injection h with h1
  exact ⟨c, _, h1.symm, hd⟩

/-- The network extracted by the Address pattern starts with a digit. -/
theorem searchAddress_head {conf : List Str} {p : Str}
    (h : searchAddress conf = some p) :
    ∃ c r, p = c :: r ∧ isDig c = true := by
  obtain ⟨l, -, hl⟩ := firstSome_some h
  obtain ⟨s, hs⟩ := searchLineWith_some hl
  exact matchAddressAt_head hs

/-! ## Digit-head and parse-back lemmas -/

theorem isDig_not_isWs {c : Char} (h : isDig c = true) : isWs c = false := by
  by_contra hw
  rw [Bool.not_eq_false] at hw
  rw [isWs] at hw
  simp only [Bool.or_eq_true, decide_eq_true_eq] at hw
  rcases hw with ((((rfl | rfl) | rfl) | rfl) | rfl) | rfl <;> revert h <;> decide

theorem dropWs_cons_dig {c : Char} {r : Str} (h : isDig c = true) :
    dropWs (c :: r) = c :: r := by
  rw [dropWs, if_neg]
  simp [isDig_not_isWs h]

theorem dropWs_append_dig {c : Char} {r x : Str} (h : isDig c = true) :
    dropWs ((c :: r) ++ x) = (c :: r) ++ x := by
  rw [List.cons_append]
  exact dropWs_cons_dig h

theorem peerField_client_pub (priv ip dns sp psk sip port : Str) (obf : Str → Str) :
    peerField (clientConfLines priv ip dns sp psk sip port obf) (str "PublicKey") =
      some (dropWs sp) := rfl

theorem peerField_client_psk (priv ip dns sp psk sip port : Str) (obf : Str → Str) :
    peerField (clientConfLines priv ip dns sp psk sip port obf) (str "PresharedKey") =
      some (dropWs psk) := rfl

theorem interfaceField_client_address (priv ip dns sp psk sip port : Str) (obf : Str → Str) :
    interfaceField (clientConfLines priv ip dns sp psk sip port obf) (str "Address") =
      some (dropWs (ip ++ str "/32")) := rfl

theorem peerField_block_pub (name pub psk ip : Str) :
    peerField (peerBlockLines name pub psk ip) (str "PublicKey") = some (dropWs pub) := rfl

theorem peerField_block_psk (name pub psk ip : Str) :
    peerField (peerBlockLines name pub psk ip) (str "PresharedKey") = some (dropWs psk) := rfl

theorem peerField_block_allowed (name pub psk ip : Str) :
    peerField (peerBlockLines name pub psk ip) (str "AllowedIPs") =
      some (dropWs (ip ++ str "/32")) := rfl

/-- Counterexample to claim C3 as stated: at the scenario world the public
key parsed back from the client document's peer block is the gateway's
public key (from `server.keys`), which differs from the public key of the
peer record appended to the server configuration (the client's). -/
theorem claim3_counterexample :
    Option.map (fun d => peerField d (str "PublicKey"))
      (outcomeClientConf (addClient wScen (str "alice") ksGood envDef).1) =
      some (some (k44 'S')) ∧
    Option.map (fun d => peerField d (str "PublicKey"))
      (outcomePeerBlock (addClient wScen (str "alice") ksGood envDef).1) =
      some (some (k44 'C')) ∧
    (k44 'S' : Str) ≠ k44 'C' :=
  ⟨by decide, by decide, by decide⟩

/-- Claim C3 as amended: for every successful enrollment, the preshared key
and the /32 address round-trip between the rendered client document and the
appended peer record (the address read from the document's interface block);
the public key in the document's peer block, however, is the resolved
gateway public key, while the appended record carries the client's derived
public key. -/
theorem claim3_roundtrip {w : World} {nm : Str} {k : KeyOutputs} {env : Env}
    (hs : outcomeIsSuccess (addClient w nm k env).1 = true) :
    ∃ cc pb ip sp,
      outcomeClientConf (addClient w nm k env).1 = some cc ∧
      outcomePeerBlock (addClient w nm k env).1 = some pb ∧
      outcomeIp (addClient w nm k env).1 = some ip ∧
      resolveServerPub w.serverKeysFile w.serverConf k = some sp ∧
      peerField cc (str "PresharedKey") = some (trimWs k.genpskOut) ∧
      peerField pb (str "PresharedKey") = some (trimWs k.genpskOut) ∧
      interfaceField cc (str "Address") = some (ip ++ str "/32") ∧
      peerField pb (str "AllowedIPs") = some (ip ++ str "/32") ∧
      peerField cc (str "PublicKey") = some sp ∧
      peerField pb (str "PublicKey") = some (trimWs k.pubkeyOut) := by
  cases hr : (addClient w nm k env).1 with
  | success ip n cc pb =>
    obtain ⟨p, sp, -, -, haddr, hn, hip, -, -, -, hres, hpb, hcc, -, -, -⟩ := success_inv hr
    obtain ⟨c, r, hpc, hdc⟩ := searchAddress_head haddr
    subst hpb
    subst hcc
    have hipd : dropWs (ip ++ str "/32") = ip ++ str "/32" := by
      rw [hip, hpc, List.append_assoc]
      exact dropWs_append_dig hdc
    refine ⟨_, _, ip, sp, rfl, rfl, rfl, hres, ?_, ?_, ?_, ?_, ?_, ?_⟩
    · rw [peerField_client_psk, dropWs_trimWs]
    · rw [peerField_block_psk, dropWs_trimWs]
    · rw [interfaceField_client_address, hipd]
    · rw [peerField_block_allowed, hipd]
    · rw [peerField_client_pub, resolveServerPub_dropWs hres]
    · rw [peerField_block_pub, dropWs_trimWs]
  | noServerConfig => rw [hr] at hs; exact absurd hs (by simp [outcomeIsSuccess])
  | duplicateClient => rw [hr] at hs; exact absurd hs (by simp [outcomeIsSuccess])
  | parseError => rw [hr] at hs; exact absurd hs (by simp [outcomeIsSuccess])
  | keyFormatError => rw [hr] at hs; exact absurd hs (by simp [outcomeIsSuccess])
  | serverKeyError => rw [hr] at hs; exact absurd hs (by simp [outcomeIsSuccess])

/-- Witness for the amended C3 at the scenario world. -/
theorem claim3_witness :
    outcomeIsSuccess (addClient wScen (str "alice") ksGood envDef).1 = true ∧
    ∃ cc pb ip sp,
      outcomeClientConf (addClient wScen (str "alice") ksGood envDef).1 = some cc ∧
      outcomePeerBlock (addClient wScen (str "alice") ksGood envDef).1 = some pb ∧
      outcomeIp (addClient wScen (str "alice") ksGood envDef).1 = some ip ∧
      resolveServerPub wScen.serverKeysFile wScen.serverConf ksGood = some sp ∧
      peerField cc (str "PresharedKey") = some (trimWs ksGood.genpskOut) ∧
      peerField pb (str "PresharedKey") = some (trimWs ksGood.genpskOut) ∧
      interfaceField cc (str "Address") = some (ip ++ str "/32") ∧
      peerField pb (str "AllowedIPs") = some (ip ++ str "/32") ∧
      peerField cc (str "PublicKey") = some sp ∧
      peerField pb (str "PublicKey") = some (trimWs ksGood.pubkeyOut) :=
  ⟨by decide, claim3_roundtrip (by decide)⟩

/-- Counterexample to claim C8 as stated: with the gateway configuration
setting the obfuscation parameter I1 to 7, enrollment succeeds but the
rendered client document contains no I1 assignment at all — the document
does not carry the same obfuscation parameters as the gateway (the script
extracts I1-I5 but never renders them). -/
theorem claim8_counterexample :
    extractObf wObf.serverConf (str "I1") = str "7" ∧
    Option.map (fun d => interfaceField d (str "I1"))
      (outcomeClientConf (addClient wObf (str "alice") ksGood envDef).1) = some none ∧
    outcomeIsSuccess (addClient wObf (str "alice") ksGood envDef).1 = true :=
  ⟨by decide, by decide, by decide⟩

/-- Claim C8 as amended: the rendered client document consists of an
interface block with the client private key, the /32 address, the DNS
resolver (default 1.1.1.1), MTU fixed at 1280 and the gateway's values of
the obfuscation parameters Jc, Jmin, Jmax, S1-S4 and H1-H4 (extracted by
name with documented defaults when absent), followed by a peer block with
the gateway public key, the preshared key, the endpoint host:port,
catch-all routes for both address families and a keepalive of 25 seconds;
the remaining extracted obfuscation parameters I1-I5 are not rendered. -/
theorem claim8_client_document {w : World} {nm : Str} {k : KeyOutputs} {env : Env}
    (hs : outcomeIsSuccess (addClient w nm k env).1 = true) :
    ∃ cc ip sp,
      outcomeClientConf (addClient w nm k env).1 = some cc ∧
      outcomeIp (addClient w nm k env).1 = some ip ∧
      resolveServerPub w.serverKeysFile w.serverConf k = some sp ∧
      (∀ l ∈ [str "[Interface]",
              str "PrivateKey = " ++ trimWs k.genkeyOut,
              str "Address = " ++ ip ++ str "/32",
              str "DNS = " ++ env.DNS.getD (str "1.1.1.1"),
              str "MTU = 1280",
              str "Jc = " ++ extractObf w.serverConf (str "Jc"),
              str "Jmin = " ++ extractObf w.serverConf (str "Jmin"),
              str "Jmax = " ++ extractObf w.serverConf (str "Jmax"),
              str "S1 = " ++ extractObf w.serverConf (str "S1"),
              str "S2 = " ++ extractObf w.serverConf (str "S2"),
              str "S3 = " ++ extractObf w.serverConf (str "S3"),
              str "S4 = " ++ extractObf w.serverConf (str "S4"),
              str "H1 = " ++ extractObf w.serverConf (str "H1"),
              str "H2 = " ++ extractObf w.serverConf (str "H2"),
              str "H3 = " ++ extractObf w.serverConf (str "H3"),
              str "H4 = " ++ extractObf w.serverConf (str "H4"),
              str "[Peer]",
              str "PublicKey = " ++ sp,
              str "PresharedKey = " ++ trimWs k.genpskOut,
              str "Endpoint = " ++ env.SERVER_IP.getD (str "YOUR_SERVER_IP") ++
                ':' :: env.LISTEN_PORT.getD (str "51820"),
              str "AllowedIPs = 0.0.0.0/0, ::/0",
              str "PersistentKeepalive = 25"], l ∈ cc) ∧
      (∀ q ∈ [str "I1", str "I2", str "I3", str "I4", str "I5"],
        interfaceField cc q = none) := by
  cases hr : (addClient w nm k env).1 with
  | success ip n cc pb =>
    obtain ⟨p, sp, -, -, haddr, hn, hip, -, -, -, hres, hpb, hcc, -, -, -⟩ := success_inv hr
    subst hcc
    refine ⟨_, ip, sp, rfl, rfl, hres, ?_, ?_⟩
    · intro l hl
      fin_cases hl <;> simp [clientConfLines]
    · intro q hq
      fin_cases hq <;> rfl
  | noServerConfig => rw [hr] at hs; exact absurd hs (by simp [outcomeIsSuccess])
  | duplicateClient => rw [hr] at hs; exact absurd hs (by simp [outcomeIsSuccess])
  | parseError => rw [hr] at hs; exact absurd hs (by simp [outcomeIsSuccess])
  | keyFormatError => rw [hr] at hs; exact absurd hs (by simp [outcomeIsSuccess])
  | serverKeyError => rw [hr] at hs; exact absurd hs (by simp [outcomeIsSuccess])

/-- Witness for the amended C8 at the world whose config sets I1 = 7. -/
theorem claim8_witness :
    outcomeIsSuccess (addClient wObf (str "alice") ksGood envDef).1 = true ∧
    ∃ cc ip sp,
      outcomeClientConf (addClient wObf (str "alice") ksGood envDef).1 = some cc ∧
      outcomeIp (addClient wObf (str "alice") ksGood envDef).1 = some ip ∧
      resolveServerPub wObf.serverKeysFile wObf.serverConf ksGood = some sp ∧
      (∀ l ∈ [str "[Interface]",
              str "PrivateKey = " ++ trimWs ksGood.genkeyOut,
              str "Address = " ++ ip ++ str "/32",
              str "DNS = " ++ envDef.DNS.getD (str "1.1.1.1"),
              str "MTU = 1280",
              str "Jc = " ++ extractObf wObf.serverConf (str "Jc"),
              str "Jmin = " ++ extractObf wObf.serverConf (str "Jmin"),
              str "Jmax = " ++ extractObf wObf.serverConf (str "Jmax"),
              str "S1 = " ++ extractObf wObf.serverConf (str "S1"),
              str "S2 = " ++ extractObf wObf.serverConf (str "S2"),
              str "S3 = " ++ extractObf wObf.serverConf (str "S3"),
              str "S4 = " ++ extractObf wObf.serverConf (str "S4"),
              str "H1 = " ++ extractObf wObf.serverConf (str "H1"),
              str "H2 = " ++ extractObf wObf.serverConf (str "H2"),
              str "H3 = " ++ extractObf wObf.serverConf (str "H3"),
              str "H4 = " ++ extractObf wObf.serverConf (str "H4"),
              str "[Peer]",
              str "PublicKey = " ++ sp,
              str "PresharedKey = " ++ trimWs ksGood.genpskOut,
              str "Endpoint = " ++ envDef.SERVER_IP.getD (str "YOUR_SERVER_IP") ++
                ':' :: envDef.LISTEN_PORT.getD (str "51820"),
              str "AllowedIPs = 0.0.0.0/0, ::/0",
              str "PersistentKeepalive = 25"], l ∈ cc) ∧
      (∀ q ∈ [str "I1", str "I2", str "I3", str "I4", str "I5"],
        interfaceField cc q = none) :=
  ⟨by decide, claim8_client_document (by decide)⟩

/-! ## Round-trip of the rendered AllowedIPs line -/

theorem stripLit_append (l r : Str) : stripLit l (l ++ r) = some r := by
  induction l with
  | nil => rfl
  | cons a t ih => simp [stripLit, ih]

theorem takeDigits_append {d r : Str}
    (hd : ∀ c ∈ d, isDig c = true) (hr : headNotDig r) :
    takeDigits (d ++ r) = (d, r) := by
  induction d with
  | nil =>
    cases r with
    | nil => rfl
    | cons c t =>
      simp only [List.nil_append, takeDigits]
      rw [if_neg]
      simp [headNotDig] at hr
      simp [hr]
  | cons a t ih =>
    have ha : isDig a = true := hd a (List.mem_cons_self a t)
    simp only [List.cons_append, takeDigits]
    rw [if_pos ha]
    show (a :: (takeDigits (t ++ r)).1, (takeDigits (t ++ r)).2) = (a :: t, r)
    rw [ih (fun c hc => hd c (List.mem_cons_of_mem a hc))]

theorem digitVal_digitChar {m : Nat} (h : m < 10) : digitVal (digitChar m) = m := by
  interval_cases m <;> decide

theorem isDig_digitChar {m : Nat} (h : m < 10) : isDig (digitChar m) = true := by
  interval_cases m <;> decide

theorem natToStrAux_ne_nil {f n : Nat} (h : n < f) : natToStrAux f n ≠ [] := by
  induction f generalizing n with
  | zero => omega
  | succ f ih =>
    rw [natToStrAux]
    by_cases h10 : n < 10
    · rw [if_pos h10]; simp
    · rw [if_neg h10]
      simp

theorem natToStrAux_all_dig {f n : Nat} (h : n < f) :
    ∀ c ∈ natToStrAux f n, isDig c = true := by
  induction f generalizing n with
  | zero => omega
  | succ f ih =>
    intro c hc
    rw [natToStrAux] at hc
    by_cases h10 : n < 10
    · rw [if_pos h10] at hc
      simp at hc
      subst hc
      exact isDig_digitChar h10
    · rw [if_neg h10] at hc
      rcases List.mem_append.mp hc with hc1 | hc2
      · exact ih (by omega : n / 10 < f) c hc1
      · simp at hc2
        subst hc2
        exact isDig_digitChar (Nat.mod_lt n (by omega))
  
theorem digitsVal_natToStrAux {f n : Nat} (h : n < f) :
    digitsVal (natToStrAux f n) = n := by
  induction f generalizing n with
  | zero => omega
  | succ f ih =>
    rw [natToStrAux]
    by_cases h10 : n < 10
    · rw [if_pos h10]
      simp [digitsVal, digitVal_digitChar h10]
    · rw [if_neg h10]
      have hrec : n / 10 < f := by
        have := Nat.div_lt_self (by omega : 0 < n) (by omega : 1 < 10)
        omega
      rw [digitsVal, List.foldl_append]
      have h1 : List.foldl (fun a c => 10 * a + digitVal c) 0 (natToStrAux f (n / 10)) = n / 10 :=
        ih hrec
      rw [h1]
      simp [digitVal_digitChar (Nat.mod_lt n (by omega : 10 > 0))]
      omega

theorem natToStr_ne_nil (n : Nat) : natToStr n ≠ [] :=
  natToStrAux_ne_nil (Nat.lt_succ_self n)

theorem natToStr_all_dig (n : Nat) : ∀ c ∈ natToStr n, isDig c = true :=
  natToStrAux_all_dig (Nat.lt_succ_self n)

theorem digitsVal_natToStr (n : Nat) : digitsVal (natToStr n) = n :=
  digitsVal_natToStrAux (Nat.lt_succ_self n)

/-- The AllowedIPs matcher, applied at the start of the line the script
itself rendered, recovers exactly the assigned host number. -/
theorem matchAllowedAt_render {c : Char} {r : Str} (n : Nat) (hd : isDig c = true) :
    matchAllowedAt (c :: r)
      (str "AllowedIPs = " ++ ((c :: r) ++ '.' :: natToStr n) ++ str "/32") = some n := by
  have h1 : str "AllowedIPs = " ++ ((c :: r) ++ '.' :: natToStr n) ++ str "/32"
      = str "AllowedIPs" ++ (str " = " ++ ((c :: r) ++ ('.' :: (natToStr n ++ str "/32")))) := by
    simp [str, List.append_assoc]
  rw [matchAllowedAt, h1, stripLit_append]
  simp only []
  have h2 : dropWs (str " = " ++ ((c :: r) ++ ('.' :: (natToStr n ++ str "/32"))))
      = '=' :: ' ' :: ((c :: r) ++ ('.' :: (natToStr n ++ str "/32"))) := rfl
  rw [h2]
  have h3 : expectChar '=' ('=' :: ' ' :: ((c :: r) ++ ('.' :: (natToStr n ++ str "/32"))))
      = some (' ' :: ((c :: r) ++ ('.' :: (natToStr n ++ str "/32")))) := rfl
  rw [h3]
  simp only []
  have h4 : dropWs (' ' :: ((c :: r) ++ ('.' :: (natToStr n ++ str "/32"))))
      = (c :: r) ++ ('.' :: (natToStr n ++ str "/32")) := by
    show dropWs ((c :: r) ++ ('.' :: (natToStr n ++ str "/32"))) = _
    exact dropWs_append_dig hd
  rw [h4, stripLit_append]
  simp only []
  have h5 : expectChar '.' ('.' :: (natToStr n ++ str "/32"))
      = some (natToStr n ++ str "/32") := rfl
  rw [h5]
  simp only []
  have h6 : takeDigits (natToStr n ++ str "/32") = (natToStr n, str "/32") :=
    takeDigits_append (natToStr_all_dig n) (show isDig '/' = false by decide)
  rw [h6]
  rw [if_neg (by simpa using natToStr_ne_nil n)]
  have h7 : stripLit (str "/32") (str "/32") = some [] := rfl
  rw [h7]
  simp only []
  rw [digitsVal_natToStr]

/-- The rendered AllowedIPs line of the appended peer block parses back to
the assigned host number. -/
theorem lineHost_render {c : Char} {r : Str} (n : Nat) (hd : isDig c = true) :
    lineHost (c :: r)
      (str "AllowedIPs = " ++ ((c :: r) ++ '.' :: natToStr n) ++ str "/32") = some n := by
  have hm := matchAllowedAt_render (c := c) (r := r) n hd
  show searchLineWith (matchAllowedAt (c :: r))
      ('A' :: (str "llowedIPs = " ++ ((c :: r) ++ '.' :: natToStr n) ++ str "/32")) = some n
  rw [searchLineWith]
  rw [show matchAllowedAt (c :: r)
      ('A' :: (str "llowedIPs = " ++ ((c :: r) ++ '.' :: natToStr n) ++ str "/32")) = some n
    from hm]

theorem lineHost_empty (p : Str) : lineHost p (str "") = none := rfl

theorem lineHost_peer_tag (p : Str) : lineHost p (str "[Peer]") = none := rfl

theorem allowedHosts_append (p : Str) (c1 c2 : List Str) :
    allowedHosts p (c1 ++ c2) = allowedHosts p c1 ++ allowedHosts p c2 :=
  List.filterMap_append c1 c2 (lineHost p)

/-- The peer block appended for host number `n` contributes exactly `[n]` to
the allocated host numbers, provided the client name and the key values do
not themselves embed an AllowedIPs entry under the network. -/
theorem allowedHosts_block {c : Char} {r nm pub psk : Str} (n : Nat) (hd : isDig c = true)
    (h1 : lineHost (c :: r) (str "# Client: " ++ nm) = none)
    (h2 : lineHost (c :: r) (str "PublicKey = " ++ pub) = none)
    (h3 : lineHost (c :: r) (str "PresharedKey = " ++ psk) = none) :
    allowedHosts (c :: r) (peerBlockLines nm pub psk ((c :: r) ++ '.' :: natToStr n)) = [n] := by
  rw [peerBlockLines, allowedHosts]
  rw [List.filterMap_cons, lineHost_empty]
  rw [List.filterMap_cons, lineHost_peer_tag]
  rw [List.filterMap_cons, h1]
  rw [List.filterMap_cons, h2]
  rw [List.filterMap_cons, h3]
  rw [List.filterMap_cons, lineHost_render n hd]
  rfl

/-- A match found in the first part of a document is the match found in the
extended document. -/
theorem firstSome_append {α : Type} {f : Str → Option α} {c1 : List Str} {v : α}
    (h : firstSome f c1 = some v) (c2 : List Str) :
    firstSome f (c1 ++ c2) = some v := by
  induction c1 with
  | nil => simp [firstSome] at h
  | cons l t ih =>
    rw [List.cons_append, firstSome]
    rw [firstSome] at h
    cases hf : f l with
    | some u => rw [hf] at h; exact h
    | none => rw [hf] at h; exact ih h

theorem searchAddress_append {conf : List Str} {p : Str}
    (h : searchAddress conf = some p) (c2 : List Str) :
    searchAddress (conf ++ c2) = some p :=
  firstSome_append h c2

/-! ## Sequences of enrollments -/

theorem maxList_append_one (l : List Nat) (x : Nat) :
    maxList (l ++ [x]) = max (maxList l) x := by
  rw [maxList, maxList, List.foldl_append]
  rfl

theorem nextHost_ge_two (u : List Nat) : 2 ≤ nextHost u := by
  cases u with
  | nil => exact le_refl 2
  | cons a t => exact le_max_right _ 2

theorem maxList_lt_nextHost (u : List Nat) : maxList u < nextHost u := by
  cases u with
  | nil => exact Nat.lt_succ_of_lt (Nat.lt_succ_self 0)
  | cons a t =>
    exact lt_of_lt_of_le (Nat.lt_succ_self _) (le_max_left _ 2)

theorem nextHost_snoc (u : List Nat) : nextHost (u ++ [nextHost u]) = nextHost u + 1 := by
  have hm : maxList u < nextHost u := maxList_lt_nextHost u
  have h2 : 2 ≤ nextHost u := nextHost_ge_two u
  cases u with
  | nil => rfl
  | cons a t =>
    show nextHost (a :: (t ++ [nextHost (a :: t)])) = _
    rw [nextHost]
    have hx : maxList (a :: (t ++ [nextHost (a :: t)])) = nextHost (a :: t) := by
      rw [show a :: (t ++ [nextHost (a :: t)]) = (a :: t) ++ [nextHost (a :: t)] from rfl]
      rw [maxList_append_one]
      exact Nat.max_eq_right (le_of_lt hm)
    rw [hx]
    exact Nat.max_eq_left (by omega)

theorem SeqOK_ge {s : Nat} {l : List Nat} (h : SeqOK s l) : ∀ x ∈ l, s ≤ x := by
  induction l generalizing s with
  | nil => simp
  | cons a t ih =>
    obtain ⟨rfl, h2⟩ := h
    intro x hx
    rcases List.mem_cons.mp hx with rfl | hx'
    · exact le_refl x
    · exact le_trans (Nat.le_succ _) (ih h2 x hx')

theorem SeqOK_chain {s : Nat} {l : List Nat} (h : SeqOK s l) :
    List.Chain' (· < ·) l := by
  induction l generalizing s with
  | nil => exact List.chain'_nil
  | cons a t ih =>
    obtain ⟨rfl, h2⟩ := h
    cases t with
    | nil => simp
    | cons b t2 =>
      obtain ⟨rfl, h3⟩ := h2
      exact List.Chain'.cons (Nat.lt_succ_self _) (ih ⟨rfl, h3⟩)

theorem SeqOK_pairwise {s : Nat} {l : List Nat} (h : SeqOK s l) :
    l.Pairwise (· ≠ ·) := by
  induction l generalizing s with
  | nil => simp
  | cons a t ih =>
    obtain ⟨rfl, h2⟩ := h
    refine List.Pairwise.cons ?_ (ih h2)
    intro x hx
    have := SeqOK_ge h2 x hx
    omega

/-- One successful enrollment appends exactly its assigned host number to
the allocated set and preserves the parsed network. -/
theorem enroll_step {w : World} {nm : Str} {k : KeyOutputs} {env : Env}
    {p ip : Str} {n : Nat} {cc pb : List Str}
    (haddr : searchAddress w.serverConf = some p)
    (hclean : CleanStep p (nm, k))
    (hr : (addClient w nm k env).1 = .success ip n cc pb) :
    n = nextHost (allowedHosts p w.serverConf) ∧
    searchAddress (addClient w nm k env).2.serverConf = some p ∧
    allowedHosts p (addClient w nm k env).2.serverConf =
      allowedHosts p w.serverConf ++ [nextHost (allowedHosts p w.serverConf)] := by
  obtain ⟨p', sp, -, -, haddr', hn, hip, -, -, -, -, hpb, -, hconf, hex, -⟩ := success_inv hr
  rw [haddr] at haddr'
  have hpp : p = p' := by injection haddr'
  subst hpp
  obtain ⟨c, r, hpc, hdc⟩ := searchAddress_head haddr
  refine ⟨hn, ?_, ?_⟩
  · rw [hconf]
    exact searchAddress_append haddr pb
  · rw [hconf, allowedHosts_append, hpb, hip, hn, hpc]
    congr 1
    exact allowedHosts_block _ hdc (hpc ▸ hclean.1) (hpc ▸ hclean.2.1) (hpc ▸ hclean.2.2)

theorem runAll_seq {env : Env} (steps : List (Str × KeyOutputs)) :
    ∀ (w : World) (l : List Nat) (wf : World) (p : Str),
      (∀ s ∈ steps, CleanStep p s) →
      searchAddress w.serverConf = some p →
      runAll env w steps = some (l, wf) →
      SeqOK (nextHost (allowedHosts p w.serverConf)) l := by
  induction steps with
  | nil =>
    intro w l wf p hc ha hr
    rw [runAll] at hr
    simp only [Option.some.injEq, Prod.mk.injEq] at hr
    obtain ⟨rfl, -⟩ := hr
    trivial
  | cons s rest ih =>
    intro w l wf p hc ha hr
    obtain ⟨nm, k⟩ := s
    rw [runAll] at hr
    cases hstep : addClient w nm k env with
    | mk res w2 =>
    rw [hstep] at hr
    cases res with
    | success ip n cc pb =>
      simp only [] at hr
      cases hrest : runAll env w2 rest with
      | none => rw [hrest] at hr; simp at hr
      | some pr =>
        obtain ⟨l2, wf2⟩ := pr
        rw [hrest] at hr
        simp only [Option.some.injEq, Prod.mk.injEq] at hr
        obtain ⟨hl, -⟩ := hr
        subst hl
        have h1 : (addClient w nm k env).1 = .success ip n cc pb := by rw [hstep]
        obtain ⟨hn, ha2, hu2⟩ :=
          enroll_step ha (hc (nm, k) (List.mem_cons_self _ _)) h1
        have hw2 : (addClient w nm k env).2 = w2 := by rw [hstep]
        rw [hw2] at ha2 hu2
        have hseq2 := ih w2 l2 wf2 p (fun t ht => hc t (List.mem_cons_of_mem _ ht)) ha2 hrest
        rw [hu2, nextHost_snoc] at hseq2
        show n = nextHost (allowedHosts p w.serverConf) ∧
          SeqOK (nextHost (allowedHosts p w.serverConf) + 1) l2
        exact ⟨hn, hseq2⟩
    | noServerConfig => simp at hr
    | duplicateClient => simp at hr
    | parseError => simp at hr
    | keyFormatError => simp at hr
    | serverKeyError => simp at hr

theorem runAll_length {env : Env} (steps : List (Str × KeyOutputs)) :
    ∀ (w : World) (l : List Nat) (wf : World),
      runAll env w steps = some (l, wf) → l.length = steps.length := by
  induction steps with
  | nil =>
    intro w l wf hr
    rw [runAll] at hr
    simp only [Option.some.injEq, Prod.mk.injEq] at hr
    obtain ⟨rfl, -⟩ := hr
    rfl
  | cons s rest ih =>
    intro w l wf hr
    obtain ⟨nm, k⟩ := s
    rw [runAll] at hr
    cases hstep : addClient w nm k env with
    | mk res w2 =>
    rw [hstep] at hr
    cases res with
    | success ip n cc pb =>
      simp only [] at hr
      cases hrest : runAll env w2 rest with
      | none => rw [hrest] at hr; simp at hr
      | some pr =>
        obtain ⟨l2, wf2⟩ := pr
        rw [hrest] at hr
        simp only [Option.some.injEq, Prod.mk.injEq] at hr
        obtain ⟨hl, -⟩ := hr
        subst hl
        simp [ih w2 l2 wf2 hrest]
    | noServerConfig => simp at hr
    | duplicateClient => simp at hr
    | parseError => simp at hr
    | keyFormatError => simp at hr
    | serverKeyError => simp at hr

/-- Claim C4: starting from a configuration with no peer records, the host
numbers assigned by any sequence of successful enrollments are strictly
increasing in issuance order, pairwise distinct, and the first one is 2. -/
theorem claim4_host_numbers {w : World} {env : Env} {p : Str}
    {steps : List (Str × KeyOutputs)} {l : List Nat}
    (hclean : ∀ s ∈ steps, CleanStep p s)
    (haddr : searchAddress w.serverConf = some p)
    (hempty : allowedHosts p w.serverConf = [])
    (hrun : Option.map Prod.fst (runAll env w steps) = some l) :
    List.Chain' (· < ·) l ∧ l.Pairwise (· ≠ ·) ∧
    (steps ≠ [] → l.head? = some 2) := by
  cases hro : runAll env w steps with
  | none => rw [hro] at hrun; simp at hrun
  | some pr =>
    obtain ⟨l2, wf⟩ := pr
    rw [hro] at hrun
    simp at hrun
    subst hrun
    have hseq := runAll_seq steps w l2 wf p hclean haddr hro
    rw [hempty] at hseq
    refine ⟨SeqOK_chain hseq, SeqOK_pairwise hseq, ?_⟩
    intro hne
    have hlen := runAll_length steps w l2 wf hro
    cases hl2 : l2 with
    | nil =>
      rw [hl2] at hlen
      cases steps with
      | nil => exact absurd rfl hne
      | cons a t => simp at hlen
    | cons x xs =>
      rw [hl2] at hseq
      obtain ⟨rfl, -⟩ := hseq
      rfl

/-- Witness for C4: two consecutive enrollments from the empty gateway
assign 2 then 3. -/
theorem claim4_witness :
    Option.map Prod.fst
      (runAll envDef wBase [(str "alice", ksGood), (str "bob", ksGood)]) = some [2, 3] ∧
    (List.Chain' (· < ·) ([2, 3] : List Nat) ∧
     ([2, 3] : List Nat).Pairwise (· ≠ ·) ∧
     (([(str "alice", ksGood), (str "bob", ksGood)] : List (Str × KeyOutputs)) ≠ [] →
       ([2, 3] : List Nat).head? = some 2)) :=
  ⟨by decide,
   @claim4_host_numbers wBase envDef (str "10.0.0")
     [(str "alice", ksGood), (str "bob", ksGood)] [2, 3]
     (by decide) (by decide) (by decide) (by decide)⟩

end AddClient
